import Mathlib

/-!
Verification development for the Drive audio link extractor (`src/app.py`).

The Python source is shallowly embedded below:
* `is_audio_file`, `extract_folder_id` are pure string functions, embedded
  directly (regex search for the literal-plus-id-group patterns becomes an
  explicit leftmost-match scan over the character list).
* `list_children` is the pagination loop, embedded with explicit fuel over an
  abstract page-fetching function.
* `scan_folder_recursive` is the depth-first walk, embedded over an inductive
  folder tree (Drive hierarchies are acyclic, so a listing of a folder is a
  forest of child items).
* `run_extraction` is embedded as a function returning the trace of
  user-visible effects (error/success/warning messages, service construction,
  CSV download offer); the CSV writer of Python's `csv` module (dialect
  `excel`, QUOTE_MINIMAL) is embedded at the character-list level together
  with a CSV reader, to state the round-trip property.
-/

namespace DriveExtractor

/-! ### Audio extension classification (`app.py` lines 14, 19-21) -/

def AUDIO_EXTENSIONS : List String :=
  [".mp3", ".wav", ".m4a", ".aac", ".flac", ".ogg", ".opus", ".wma"]

/-- Python `name.lower().endswith(ext)` at the character level: lowercase
each character and test the extension as a suffix of the character list. -/
def is_audio_file (name : String) : Bool :=
  AUDIO_EXTENSIONS.any (fun ext => ext.data.isSuffixOf (name.data.map Char.toLower))

/-! ### Folder-id extraction (`app.py` lines 24-35)

`re.search(lit + "([a-zA-Z0-9_-]+)", url)` finds the leftmost position where
the literal `lit` occurs followed by at least one id character, and captures
the maximal run of id characters after the literal.  `tryLit` attempts this at
the start of the string, `searchLitId` scans left to right.

The fourth pattern `^([a-zA-Z0-9_-]{25,})$` anchors at both ends; in Python
(without `re.MULTILINE`) `$` also matches just before a trailing newline, so
`matchBareId` accepts that case as well. -/

def isIdChar (c : Char) : Bool :=
  (('a' ≤ c && c ≤ 'z') || ('A' ≤ c && c ≤ 'Z') ||
   ('0' ≤ c && c ≤ '9') || c = '_' || c = '-')

def tryLit (lit s : List Char) : Option (List Char) :=
  if lit.isPrefixOf s then
    let g := (s.drop lit.length).takeWhile isIdChar
    if g.isEmpty then none else some g
  else none

def searchLitId (lit : List Char) : List Char → Option (List Char)
  | [] => none
  | c :: rest =>
    match tryLit lit (c :: rest) with
    | some g => some g
    | none => searchLitId lit rest

def matchBareId (s : List Char) : Option (List Char) :=
  if 25 ≤ s.length && s.all isIdChar then some s
  else if s.getLast? = some '\n' && 25 ≤ s.dropLast.length && s.dropLast.all isIdChar then
    some s.dropLast
  else none

def extract_folder_id (url : String) : Option String :=
  match searchLitId "/folders/".data url.data with
  | some g => some (String.mk g)
  | none =>
    match searchLitId "/drive/folders/".data url.data with
    | some g => some (String.mk g)
    | none =>
      match searchLitId "id=".data url.data with
      | some g => some (String.mk g)
      | none =>
        match matchBareId url.data with
        | some g => some (String.mk g)
        | none => none

/-- The same extractor with the second (redundant) pattern removed. -/
def extract_folder_id_noSecond (url : String) : Option String :=
  match searchLitId "/folders/".data url.data with
  | some g => some (String.mk g)
  | none =>
    match searchLitId "id=".data url.data with
    | some g => some (String.mk g)
    | none =>
      match matchBareId url.data with
      | some g => some (String.mk g)
      | none => none

/-! ### Drive data model (`app.py` lines 64-76, 95-100)

A listing entry carries exactly the fields requested from the API:
`files(id,name,mimeType,createdTime,webViewLink)`; `item.get(..., "")`
defaults a missing field to the empty string, so every field is a plain
string. -/

structure DriveItem where
  id : String
  name : String
  mimeType : String
  createdTime : String
  webViewLink : String
deriving DecidableEq

def FOLDER_MIME : String := "application/vnd.google-apps.folder"

/-! ### Pagination (`app.py` lines 56-84)

The Drive service is abstracted as a function from the page token of the
request (`none` for the first page) to the response for this folder.  The
`while True` loop is embedded with explicit fuel; `none` signals fuel
exhaustion (a token chain the loop never exits), and never occurs when the
responses form a finite chain. -/

structure ListResp where
  files : List DriveItem
  nextPageToken : Option String

def list_children_loop (fetch : Option String → ListResp) :
    List DriveItem → Option String → Nat → Option (List DriveItem)
  | _, _, 0 => none
  | all_items, page_token, fuel + 1 =>
    let resp := fetch page_token
    let acc := all_items ++ resp.files
    match resp.nextPageToken with
    | none => some acc
    | some t => list_children_loop fetch acc (some t) fuel

def list_children (fetch : Option String → ListResp) (fuel : Nat) :
    Option (List DriveItem) :=
  list_children_loop fetch [] none fuel

/-- The finite chain of pages the service returns for one folder: starting
from request token `t`, the responses link each page to the next until a
response carries no continuation token.  The list collects the `files` field
of every page in order. -/
inductive PageChain (fetch : Option String → ListResp) :
    Option String → List (List DriveItem) → Prop
  | last {t : Option String} (h : (fetch t).nextPageToken = none) :
      PageChain fetch t [(fetch t).files]
  | step {t : Option String} {t' : String} {ps : List (List DriveItem)}
      (h : (fetch t).nextPageToken = some t')
      (hrest : PageChain fetch (some t') ps) :
      PageChain fetch t ((fetch t).files :: ps)

/-! ### Recursive folder walk (`app.py` lines 87-122)

A Drive folder hierarchy is acyclic, so the contents of the scanned folder
form a forest: each child item together with (when it is a folder) the forest
of its own children.  `scan_folder_recursive` walks a forest exactly as the
source walks the listing of a folder id, the `children` of a node standing
for `list_children(service, item.id)`.  (The forest is its own inductive
rather than a `List` so that the walk is structurally recursive and
computable by the kernel.) -/

mutual
inductive DriveTree where
  | node (item : DriveItem) (children : DriveForest)

inductive DriveForest where
  | nil
  | cons (t : DriveTree) (ts : DriveForest)
end

/-- The tree `t` is one of the entries of the forest. -/
def memForest (t : DriveTree) : DriveForest → Prop
  | DriveForest.nil => False
  | DriveForest.cons h rest => t = h ∨ memForest t rest

def share_link (file_id : String) : String :=
  "https://drive.google.com/file/d/" ++ file_id ++ "/view?usp=sharing"

def direct_link (file_id : String) : String :=
  "https://drive.google.com/uc?id=" ++ file_id

/-- The row appended for an audio file (`app.py` lines 110-120). -/
def audioRow (path : String) (item : DriveItem) : List String :=
  [item.name, path, item.webViewLink,
   share_link item.id, direct_link item.id, item.createdTime, item.id]

/-- Python `f"{path}/{name}" if path else name` (`app.py` line 103). -/
def new_path (path name : String) : String :=
  if path = "" then name else path ++ "/" ++ name

def scan_folder_recursive : DriveForest → String → List (List String)
  | DriveForest.nil, _ => []
  | DriveForest.cons (DriveTree.node item children) rest, path =>
    (if item.mimeType = FOLDER_MIME then
      scan_folder_recursive children (new_path path item.name)
    else if is_audio_file item.name then [audioRow path item] else [])
    ++ scan_folder_recursive rest path

/-! ### Spec-side description of the walk

From the spec's words: the walk "returns exactly the rows of the non-folder
items whose names classify as audio, each carrying the slash-joined
concatenation of the names of the folders on the path from the root to the
item".  `audioItemsUnder` enumerates, depth-first, each audio (non-folder)
item together with the list of folder names above it; `joinSlash` is the
slash-joined concatenation. -/

def joinSlash : List String → String
  | [] => ""
  | [n] => n
  | n :: ns => n ++ "/" ++ joinSlash ns

def audioItemsUnder : DriveForest → List String → List (DriveItem × List String)
  | DriveForest.nil, _ => []
  | DriveForest.cons (DriveTree.node item children) rest, folders =>
    (if item.mimeType = FOLDER_MIME then
      audioItemsUnder children (folders ++ [item.name])
    else if is_audio_file item.name then [(item, folders)] else [])
    ++ audioItemsUnder rest folders

/-- The rows the spec predicts: one per audio item, with the slash-joined
folder-name path in the second column. -/
def specRows (ts : DriveForest) : List (List String) :=
  (audioItemsUnder ts []).map (fun p => audioRow (joinSlash p.2) p.1)

/-- Every folder item in the forest has a non-empty name. -/
def goodNames : DriveForest → Bool
  | DriveForest.nil => true
  | DriveForest.cons (DriveTree.node item children) rest =>
    (item.mimeType != FOLDER_MIME || item.name != "")
    && goodNames children && goodNames rest

/-! ### The extraction driver (`app.py` lines 125-162)

`run_extraction` is embedded as a trace of its user-visible effects, in the
order they happen.  The Drive content is a function from folder id to the
forest of items below it (what the recursive walk would discover starting
from that id). -/

inductive Effect where
  | errorMsg (msg : String)
  | buildService
  | successMsg (msg : String)
  | warningMsg (msg : String)
  | downloadCsv (data : List Char)
deriving DecidableEq

def HEADER : List String :=
  ["File Name", "Folder Path", "View Link", "Share Link",
   "Direct Download Link", "Uploaded Date", "File ID"]

/-! ### CSV writer (`csv.writer` with the default `excel` dialect)

`app.py` lines 142-155 write the header and the rows with `csv.writer` on a
`StringIO`: delimiter `,`, quote character `"`, line terminator `"\r\n"`,
`QUOTE_MINIMAL` (a field is quoted exactly when it contains the delimiter,
the quote character, or a line-terminator character; quote characters inside
a quoted field are doubled).  A standard CSV reader is embedded alongside to
state the round-trip property. -/

def csvSpecial (c : Char) : Bool :=
  c = ',' || c = '"' || c = '\r' || c = '\n'

def fieldEnd (c : Char) : Bool :=
  c = ',' || c = '\r' || c = '\n'

def escapeQuotes : List Char → List Char
  | [] => []
  | c :: cs => if c = '"' then '"' :: '"' :: escapeQuotes cs else c :: escapeQuotes cs

def encodeField (f : List Char) : List Char :=
  if f.any csvSpecial then '"' :: (escapeQuotes f ++ ['"']) else f

def encodeFields : List (List Char) → List Char
  | [] => []
  | [f] => encodeField f
  | f :: fs => encodeField f ++ ',' :: encodeFields fs

def encodeRow (fs : List (List Char)) : List Char :=
  encodeFields fs ++ ['\r', '\n']

def encodeCSV (rows : List (List (List Char))) : List Char :=
  (rows.map encodeRow).flatten

/-- Read the body of a quoted field (after the opening quote): a doubled
quote is a literal quote, a single quote closes the field. -/
def parseQuoted : List Char → List Char × List Char
  | [] => ([], [])
  | '"' :: '"' :: rest => let p := parseQuoted rest; ('"' :: p.1, p.2)
  | '"' :: rest => ([], rest)
  | c :: rest => let p := parseQuoted rest; (c :: p.1, p.2)

/-- Read an unquoted field: everything up to a delimiter or line end. -/
def parseBare : List Char → List Char × List Char
  | [] => ([], [])
  | c :: rest =>
    if fieldEnd c then ([], c :: rest)
    else let p := parseBare rest; (c :: p.1, p.2)

def parseField : List Char → List Char × List Char
  | '"' :: rest => parseQuoted rest
  | s => parseBare s

theorem parseQuoted_length_le (s : List Char) : (parseQuoted s).2.length ≤ s.length := by
  induction s using parseQuoted.induct <;> simp_all [parseQuoted] <;> omega

theorem parseBare_length_le (s : List Char) : (parseBare s).2.length ≤ s.length := by
  induction s using parseBare.induct <;> simp_all [parseBare] <;> omega

theorem parseField_length_le (s : List Char) : (parseField s).2.length ≤ s.length := by
  cases s with
  | nil => simp [parseField, parseBare]
  | cons c rest =>
    by_cases hc : c = '"'
    · subst hc
      have := parseQuoted_length_le rest
      simp [parseField]
      omega
    · have h : parseField (c :: rest) = parseBare (c :: rest) := by
        unfold parseField
        split
        · simp_all
        · rfl
      rw [h]
      exact parseBare_length_le _

/-- Read one record: fields separated by `,`, terminated by a line end or the
end of the input. -/
def parseRow (s : List Char) : List (List Char) × List Char :=
  match h : (parseField s).2 with
  | ',' :: rest =>
    let q := parseRow rest
    ((parseField s).1 :: q.1, q.2)
  | '\r' :: '\n' :: rest => ([(parseField s).1], rest)
  | '\r' :: rest => ([(parseField s).1], rest)
  | '\n' :: rest => ([(parseField s).1], rest)
  | _ => ([(parseField s).1], (parseField s).2)
termination_by s.length
decreasing_by
  have := parseField_length_le s
  rw [h] at this
  simp at this
  omega

theorem parseField_eq_bare {c : Char} (rest : List Char) (hc : ¬c = '"') :
    parseField (c :: rest) = parseBare (c :: rest) := by
  unfold parseField
  split
  · simp_all
  · rfl

/-- `parseBare` stops only at the end of the input or at a field-ending
character. -/
theorem parseBare_stop (s : List Char) :
    (parseBare s).2 = [] ∨
    ∃ c t, (parseBare s).2 = c :: t ∧ fieldEnd c = true := by
  induction s using parseBare.induct with
  | case1 => simp [parseBare]
  | case2 c rest h =>
    right
    exact ⟨c, rest, by simp [parseBare, h], h⟩
  | case3 c rest h ih => simpa [parseBare, h] using ih

theorem parseRow_length_le (s : List Char) : (parseRow s).2.length ≤ s.length := by
  induction s using parseRow.induct with
  | case1 x rest h ih =>
    have hf := parseField_length_le x
    rw [parseRow]
    split <;> simp_all <;> omega
  | case2 x rest h =>
    have hf := parseField_length_le x
    rw [parseRow]
    split <;> simp_all <;> omega
  | case3 x rest hne h =>
    have hf := parseField_length_le x
    rw [parseRow]
    split
    next r2 heq =>
      rw [h] at heq
      simp at heq
    next r2 heq =>
      rw [h] at heq
      simp at heq
      exact (hne r2 heq).elim
    next r2 heq =>
      rw [h] at heq
      simp at heq
      rw [h] at hf
      simp at hf
      subst heq
      simp
      omega
    next r2 heq =>
      rw [h] at heq
      simp at heq
    next h1 h2 h3 h4 =>
      exact (h3 rest h).elim
  | case4 x rest h =>
    have hf := parseField_length_le x
    rw [parseRow]
    split <;> simp_all
    omega
  | case5 x h1 h2 h3 h4 =>
    have hf := parseField_length_le x
    rw [parseRow]
    split <;> simp_all

/-- On a non-empty input, `parseRow` consumes at least one character. -/
theorem parseRow_length_lt (s : List Char) (hs : s ≠ []) :
    (parseRow s).2.length < s.length := by
  have hf := parseField_length_le s
  rw [parseRow]
  split
  · rename_i rest h
    have := parseRow_length_le rest
    rw [h] at hf
    simp at hf ⊢
    omega
  · rename_i rest h
    rw [h] at hf
    simp at hf ⊢
    omega
  · rename_i rest h
    rw [h] at hf
    simp at hf ⊢
    omega
  · rename_i rest h
    rw [h] at hf
    simp at hf ⊢
    omega
  · rename_i h1 h2 h3 h4
    obtain ⟨c, t, rfl⟩ := List.exists_cons_of_ne_nil hs
    by_cases hc : c = '"'
    · subst hc
      have := parseQuoted_length_le t
      simp [parseField] at hf ⊢
      omega
    · show (parseField (c :: t)).2.length < (c :: t).length
      rw [parseField_eq_bare t hc] at h1 h3 h4 ⊢
      rcases parseBare_stop (c :: t) with hstop | ⟨d, u, hdu, hde⟩
      · simp [hstop]
      · exfalso
        have hd : d = ',' ∨ d = '\r' ∨ d = '\n' := by
          simpa [fieldEnd, or_assoc] using hde
        rcases hd with hd | hd | hd <;> subst hd
        · exact h1 u hdu
        · exact h3 u hdu
        · exact h4 u hdu

/-- Read a whole CSV document: records until the input is exhausted. -/
def parseCSV : List Char → List (List (List Char))
  | [] => []
  | c :: rest =>
    let p := parseRow (c :: rest)
    p.1 :: parseCSV p.2
termination_by s => s.length
decreasing_by
  have := parseRow_length_lt (c :: rest) (by simp)
  simpa using this

/-! ### CSV round trip -/

theorem parseQuoted_escape (f t : List Char) (ht : ∀ u, t ≠ '"' :: u) :
    parseQuoted (escapeQuotes f ++ '"' :: t) = (f, t) := by
  induction f with
  | nil =>
    cases t with
    | nil => rfl
    | cons c u =>
      have hc : ¬c = '"' := by
        intro h
        exact ht u (by rw [h])
      simp [escapeQuotes, parseQuoted, hc]
  | cons c cs ih =>
    by_cases hc : c = '"'
    · subst hc
      simp [escapeQuotes, parseQuoted, ih]
    · simp [escapeQuotes, parseQuoted, hc, ih]

theorem parseBare_append (f t : List Char) (hf : ∀ c ∈ f, csvSpecial c = false)
    (ht : ∀ c u, t = c :: u → fieldEnd c = true) :
    parseBare (f ++ t) = (f, t) := by
  induction f with
  | nil =>
    cases t with
    | nil => rfl
    | cons c u =>
      have := ht c u rfl
      simp [parseBare, this]
  | cons c cs ih =>
    have hcs : csvSpecial c = false := hf c (by simp)
    have hfe : fieldEnd c = false := by
      revert hcs
      simp [csvSpecial, fieldEnd]
      tauto
    have ih2 := ih (fun d hd => hf d (List.mem_cons_of_mem _ hd))
    simp [parseBare, hfe, ih2]

theorem parseField_encode (f t : List Char)
    (ht : ∀ c u, t = c :: u → fieldEnd c = true) :
    parseField (encodeField f ++ t) = (f, t) := by
  by_cases hq : f.any csvSpecial
  · have htq : ∀ u, t ≠ '"' :: u := by
      intro u hu
      have := ht '"' u hu
      simp [fieldEnd] at this
    rw [encodeField, if_pos hq]
    have hshape : ('"' :: (escapeQuotes f ++ ['"'])) ++ t
        = '"' :: (escapeQuotes f ++ '"' :: t) := by simp
    rw [hshape]
    simp only [parseField]
    exact parseQuoted_escape f t htq
  · have hf : ∀ c ∈ f, csvSpecial c = false := by
      intro c hc
      by_contra hcc
      exact hq (List.any_eq_true.mpr ⟨c, hc, by simpa using hcc⟩)
    rw [encodeField, if_neg hq]
    cases f with
    | nil =>
      simp only [List.nil_append]
      cases t with
      | nil => rfl
      | cons c u =>
        have hcf := ht c u rfl
        have hc : ¬c = '"' := by
          intro h
          rw [h] at hcf
          simp [fieldEnd] at hcf
        rw [parseField_eq_bare u hc]
        simp [parseBare, hcf]
    | cons c cs =>
      have hcs : csvSpecial c = false := hf c (by simp)
      have hc : ¬c = '"' := by
        intro h
        rw [h] at hcs
        simp [csvSpecial] at hcs
      rw [List.cons_append, parseField_eq_bare _ hc, ← List.cons_append]
      exact parseBare_append _ t hf ht

theorem encodeFields_cons₂ (f g : List Char) (gs : List (List Char)) :
    encodeFields (f :: g :: gs) = encodeField f ++ ',' :: encodeFields (g :: gs) := rfl

theorem parseRow_encodeFields (fs : List (List Char)) (t : List Char) (hfs : fs ≠ []) :
    parseRow (encodeFields fs ++ '\r' :: '\n' :: t) = (fs, t) := by
  induction fs with
  | nil => exact (hfs rfl).elim
  | cons f fs' ih =>
    cases fs' with
    | nil =>
      have hpf := parseField_encode f ('\r' :: '\n' :: t) (by
        intro c u h
        cases h
        rfl)
      have hsh : encodeFields [f] ++ '\r' :: '\n' :: t = encodeField f ++ '\r' :: '\n' :: t := rfl
      rw [hsh, parseRow]
      split
      next r2 heq =>
        rw [hpf] at heq
        simp at heq
      next r2 heq =>
        rw [hpf] at heq
        simp at heq
        rw [hpf]
        simp [heq]
      next r2 hne heq =>
        rw [hpf] at heq
        simp at heq
        exact absurd heq.symm (hne t)
      next r2 heq =>
        rw [hpf] at heq
        simp at heq
      next h1 h2 h3 h4 =>
        exact absurd (by rw [hpf]) (h2 t)
    | cons g gs =>
      have hpf := parseField_encode f (',' :: (encodeFields (g :: gs) ++ '\r' :: '\n' :: t)) (by
        intro c u h
        cases h
        rfl)
      have hsh : encodeFields (f :: g :: gs) ++ '\r' :: '\n' :: t
          = encodeField f ++ ',' :: (encodeFields (g :: gs) ++ '\r' :: '\n' :: t) := by
        rw [encodeFields_cons₂]
        simp
      rw [hsh, parseRow]
      have ih2 := ih (by simp)
      split
      next r2 heq =>
        rw [hpf] at heq
        simp at heq
        subst heq
        rw [hpf, ih2]
      next r2 heq =>
        rw [hpf] at heq
        simp at heq
      next r2 hne heq =>
        rw [hpf] at heq
        simp at heq
      next r2 heq =>
        rw [hpf] at heq
        simp at heq
      next h1 h2 h3 h4 =>
        exact absurd (by rw [hpf]) (h1 (encodeFields (g :: gs) ++ '\r' :: '\n' :: t))

theorem encodeCSV_cons (r : List (List Char)) (rows : List (List (List Char))) :
    encodeCSV (r :: rows) = encodeRow r ++ encodeCSV rows := by
  simp [encodeCSV]

theorem parseCSV_encodeCSV (rows : List (List (List Char)))
    (h : ∀ r ∈ rows, r ≠ []) : parseCSV (encodeCSV rows) = rows := by
  induction rows with
  | nil => simp [encodeCSV, parseCSV]
  | cons r rows' ih =>
    have hr : r ≠ [] := h r (by simp)
    have hrow := parseRow_encodeFields r (encodeCSV rows') hr
    have hsh : encodeCSV (r :: rows')
        = encodeFields r ++ '\r' :: '\n' :: encodeCSV rows' := by
      rw [encodeCSV_cons, encodeRow]
      simp
    rw [hsh]
    have hne : encodeFields r ++ '\r' :: '\n' :: encodeCSV rows' ≠ [] := by
      intro hcontra
      have := congrArg List.length hcontra
      simp at this
    cases hA : encodeFields r ++ '\r' :: '\n' :: encodeCSV rows' with
    | nil => exact absurd hA hne
    | cons c u =>
      rw [parseCSV]
      rw [← hA, hrow]
      simp
      exact ih (fun s hs => h s (List.mem_cons_of_mem _ hs))

/-! ### The extraction driver trace -/

/-- The CSV text `run_extraction` offers for download: header row first,
then one row per audio file (`app.py` lines 142-155). -/
def run_csv (results : List (List String)) : List Char :=
  encodeCSV ((HEADER :: results).map (fun r => r.map String.data))

/-- `run_extraction`, as the ordered trace of its user-visible effects.  The
Drive content is abstracted as the forest of items reachable under each
folder id. -/
def run_extraction (drive : String → DriveForest) (folder_url : String) :
    List Effect :=
  match extract_folder_id folder_url with
  | none => [Effect.errorMsg "Invalid folder URL / ID"]
  | some folder_id =>
    let results := scan_folder_recursive (drive folder_id) ""
    Effect.buildService ::
    Effect.successMsg ("Done. Found " ++ toString results.length ++ " audio files.") ::
    (if results.isEmpty then
      [Effect.warningMsg
        "No audio files found, or the folder isn\x27t shared with the service account."]
    else
      [Effect.downloadCsv (run_csv results)])

/-! ### Supporting lemmas for the claims -/

theorem joinSlash_cons₂ (n n2 : String) (ns : List String) :
    joinSlash (n :: n2 :: ns) = n ++ "/" ++ joinSlash (n2 :: ns) := rfl

theorem slash_append_ne_empty (a b : String) : ¬a ++ "/" ++ b = "" := by
  intro h
  have hl := congrArg String.length h
  rw [String.length_append, String.length_append] at hl
  have h1 : "/".length = 1 := rfl
  have h0 : "".length = 0 := rfl
  rw [h1, h0] at hl
  omega

theorem joinSlash_ne_empty (n : String) (ns : List String) (hn : ¬n = "") :
    ¬joinSlash (n :: ns) = "" := by
  cases ns with
  | nil => simpa [joinSlash] using hn
  | cons n2 ns' =>
    rw [joinSlash_cons₂]
    exact slash_append_ne_empty n (joinSlash (n2 :: ns'))

theorem new_path_joinSlash (ns : List String) (m : String)
    (hns : ∀ n ∈ ns, ¬n = "") (hm : ¬m = "") :
    new_path (joinSlash ns) m = joinSlash (ns ++ [m]) := by
  induction ns with
  | nil => simp [joinSlash, new_path]
  | cons n ns' ih =>
    have hn : ¬n = "" := hns n (by simp)
    cases ns' with
    | nil =>
      simp [joinSlash, new_path, hn]
    | cons n2 ns'' =>
      have hn2 : ¬n2 = "" := hns n2 (by simp)
      have ih2 := ih (fun d hd => hns d (List.mem_cons_of_mem _ hd))
      rw [joinSlash_cons₂]
      simp only [List.cons_append]
      rw [joinSlash_cons₂]
      simp only [List.cons_append] at ih2
      rw [← ih2]
      rw [new_path, if_neg (slash_append_ne_empty n (joinSlash (n2 :: ns'')))]
      rw [new_path, if_neg (joinSlash_ne_empty n2 ns'' hn2)]
      simp [String.append_assoc]

theorem scan_eq_specRows_aux (ts : DriveForest) (path : String) :
    goodNames ts = true →
    ∀ folders : List String, (∀ n ∈ folders, ¬n = "") → path = joinSlash folders →
    scan_folder_recursive ts path
      = (audioItemsUnder ts folders).map (fun p => audioRow (joinSlash p.2) p.1) := by
  induction ts, path using scan_folder_recursive.induct with
  | case1 path =>
    intro _ folders _ _
    simp [scan_folder_recursive, audioItemsUnder]
  | case2 item children rest path ih1 ih2 =>
    intro hg folders hfs hpath
    rw [goodNames] at hg
    simp only [Bool.and_eq_true] at hg
    obtain ⟨⟨hgn, hgc⟩, hgr⟩ := hg
    rw [scan_folder_recursive, audioItemsUnder]
    by_cases hm : item.mimeType = FOLDER_MIME
    · rw [if_pos hm, if_pos hm]
      have hnm : ¬item.name = "" := by
        rcases Bool.or_eq_true _ _ |>.mp hgn with hcase | hcase
        · simp [hm] at hcase
        · simpa using hcase
      have hfs2 : ∀ n ∈ folders ++ [item.name], ¬n = "" := by
        intro n hn
        rcases List.mem_append.mp hn with hnf | hnf
        · exact hfs n hnf
        · simp at hnf
          rw [hnf]
          exact hnm
      have hpath2 : new_path path item.name = joinSlash (folders ++ [item.name]) := by
        rw [hpath]
        exact new_path_joinSlash folders item.name hfs hnm
      rw [List.map_append]
      rw [ih1 hgc (folders ++ [item.name]) hfs2 hpath2]
      rw [ih2 hgr folders hfs hpath]
    · rw [if_neg hm, if_neg hm]
      by_cases ha : is_audio_file item.name
      · rw [if_pos ha, if_pos ha]
        rw [List.map_append]
        rw [ih2 hgr folders hfs hpath]
        simp [hpath]
      · rw [if_neg ha, if_neg ha]
        simp only [List.nil_append]
        exact ih2 hgr folders hfs hpath

theorem list_children_loop_chain (fetch : Option String → ListResp)
    {tok : Option String} {ps : List (List DriveItem)}
    (hc : PageChain fetch tok ps) :
    ∀ (acc : List DriveItem) (fuel : Nat), ps.length ≤ fuel →
    list_children_loop fetch acc tok fuel = some (acc ++ ps.flatten) := by
  induction hc with
  | last h =>
    intro acc fuel hf
    cases fuel with
    | zero => simp at hf
    | succ n =>
      rw [list_children_loop]
      simp only [h]
      simp
  | step h hrest ih =>
    intro acc fuel hf
    cases fuel with
    | zero => simp at hf
    | succ n =>
      rw [list_children_loop]
      simp only [h]
      rename_i t t' ps'
      have := ih (acc ++ (fetch t).files) n (by simp at hf; omega)
      rw [this]
      simp

theorem searchLitId_isSome_cons (lit : List Char) (c : Char) (s : List Char)
    (h : (searchLitId lit s).isSome) : (searchLitId lit (c :: s)).isSome := by
  rw [searchLitId]
  cases ht : tryLit lit (c :: s) with
  | some g => simp
  | none => simpa using h

theorem searchLitId_isSome_append (lit a t : List Char)
    (h : (searchLitId lit t).isSome) : (searchLitId lit (a ++ t)).isSome := by
  induction a with
  | nil => simpa using h
  | cons c a' ih => exact searchLitId_isSome_cons lit c (a' ++ t) ih

theorem tryLit_self (lit r : List Char) (h : ¬(r.takeWhile isIdChar).isEmpty = true) :
    (tryLit lit (lit ++ r)).isSome := by
  rw [tryLit]
  rw [if_pos (List.isPrefixOf_iff_prefix.mpr ⟨r, rfl⟩)]
  simp only [List.drop_left]
  rw [if_neg h]
  simp

theorem searchLitId_self (c : Char) (lit r : List Char)
    (h : ¬(r.takeWhile isIdChar).isEmpty = true) :
    (searchLitId (c :: lit) ((c :: lit) ++ r)).isSome := by
  rw [List.cons_append, searchLitId]
  have hts := tryLit_self (c :: lit) r h
  rw [← List.cons_append]
  obtain ⟨g, hg⟩ := Option.isSome_iff_exists.mp hts
  rw [hg]
  simp

theorem searchLitId_drive_folders (s : List Char)
    (h : (searchLitId "/drive/folders/".data s).isSome) :
    (searchLitId "/folders/".data s).isSome := by
  induction s with
  | nil => simp [searchLitId] at h
  | cons c rest ih =>
    rw [searchLitId] at h
    cases ht : tryLit "/drive/folders/".data (c :: rest) with
    | none =>
      rw [ht] at h
      simp at h
      exact searchLitId_isSome_cons _ c rest (ih h)
    | some g =>
      rw [tryLit] at ht
      split at ht
      case isFalse => simp at ht
      case isTrue hp =>
        obtain ⟨r, hr⟩ := List.isPrefixOf_iff_prefix.mp hp
        rw [← hr] at ht
        simp only [List.drop_left] at ht
        by_cases hne : (List.takeWhile isIdChar r).isEmpty = true
        · rw [if_pos hne] at ht
          simp at ht
        · rw [← hr]
          have hshape : "/drive/folders/".data ++ r
              = "/drive".data ++ ("/folders/".data ++ r) := rfl
          rw [hshape]
          apply searchLitId_isSome_append
          exact searchLitId_self '/' "folders/".data r hne

/-! ### Concrete example data

`exGoodTree` is a depth-3 folder tree with audio and non-audio files
interleaved (two nested folders, audio at every level, one text file);
`exBadTree` is a depth-2 chain whose outer folder has the empty name;
`exFetch` is a service whose listing spans three pages linked by
continuation tokens. -/

def exBadTree : DriveForest :=
  DriveForest.cons
    (DriveTree.node ⟨"f1", "", FOLDER_MIME, "", ""⟩
      (DriveForest.cons
        (DriveTree.node ⟨"f2", "b", FOLDER_MIME, "", ""⟩
          (DriveForest.cons
            (DriveTree.node ⟨"x1", "track.mp3", "audio/mpeg", "2024-01-01", "wv1"⟩
              DriveForest.nil)
            DriveForest.nil))
        DriveForest.nil))
    DriveForest.nil

def exGoodTree : DriveForest :=
  DriveForest.cons
    (DriveTree.node ⟨"f1", "Albums", FOLDER_MIME, "2024-01-01", "wf1"⟩
      (DriveForest.cons
        (DriveTree.node ⟨"f2", "Rock", FOLDER_MIME, "2024-01-02", "wf2"⟩
          (DriveForest.cons
            (DriveTree.node ⟨"x1", "track.mp3", "audio/mpeg", "2024-01-03", "wv1"⟩
              DriveForest.nil)
            (DriveForest.cons
              (DriveTree.node ⟨"x2", "notes.txt", "text/plain", "2024-01-04", "wv2"⟩
                DriveForest.nil)
              DriveForest.nil)))
        (DriveForest.cons
          (DriveTree.node ⟨"x3", "Song.MP3", "audio/mpeg", "2024-01-05", "wv3"⟩
            DriveForest.nil)
          DriveForest.nil)))
    (DriveForest.cons
      (DriveTree.node ⟨"x4", "root.wav", "audio/wav", "2024-01-06", "wv4"⟩
        DriveForest.nil)
      DriveForest.nil)

def exFetch : Option String → ListResp := fun tok =>
  if tok = some "page2" then ⟨[⟨"b1", "b.mp3", "audio/mpeg", "", ""⟩], some "page3"⟩
  else if tok = some "page3" then ⟨[⟨"c1", "c.flac", "audio/flac", "", ""⟩], none⟩
  else ⟨[⟨"a1", "a.mp3", "audio/mpeg", "", ""⟩, ⟨"a2", "doc.txt", "text/plain", "", ""⟩],
        some "page2"⟩

/-- The header line the CSV begins with, spelled out as text. -/
def CSV_HEADER_LINE : List Char :=
  ("File Name,Folder Path,View Link,Share Link,Direct Download Link," ++
   "Uploaded Date,File ID\r\n").data

/-- Induction over a forest along its list spine. -/
def forestRec {motive : DriveForest → Prop} (h0 : motive DriveForest.nil)
    (h1 : ∀ t ts, motive ts → motive (DriveForest.cons t ts)) : ∀ ts, motive ts
  | DriveForest.nil => h0
  | DriveForest.cons t ts => h1 t ts (forestRec h0 h1 ts)

theorem scan_root_children (ts : DriveForest) :
    ∀ (item : DriveItem) (children : DriveForest),
      memForest (DriveTree.node item children) ts →
      ¬item.mimeType = FOLDER_MIME → is_audio_file item.name = true →
      audioRow "" item ∈ scan_folder_recursive ts "" := by
  refine forestRec (motive := fun f => ∀ (item : DriveItem) (children : DriveForest),
      memForest (DriveTree.node item children) f →
      ¬item.mimeType = FOLDER_MIME → is_audio_file item.name = true →
      audioRow "" item ∈ scan_folder_recursive f "") ?_ ?_ ts
  · intro item children h _ _
    simp [memForest] at h
  · intro t rest ih item children hmem hnf ha
    cases t with
    | node hitem hchildren =>
      rw [memForest] at hmem
      rw [scan_folder_recursive]
      rcases hmem with heq | hmem2
      · have hi : item = hitem := by injection heq
        subst hi
        rw [if_neg hnf, if_pos ha]
        simp
      · exact List.mem_append.mpr (Or.inr (ih item children hmem2 hnf ha))

/-! ### The claims -/

/-- C1 (amended): for every folder tree in which each folder has a non-empty
name, the depth-first walk started at the root with the empty path returns
exactly the rows of the non-folder audio items, each carrying the
slash-joined concatenation of the folder names on the path from the root
(`specRows`); folders contribute no rows.  (Without the non-empty-name
condition the claim fails: see the counterexample.) -/
theorem scan_eq_specRows (ts : DriveForest) (hg : goodNames ts = true) :
    scan_folder_recursive ts "" = specRows ts := by
  rw [specRows]
  exact scan_eq_specRows_aux ts "" hg [] (by simp) rfl

theorem scan_eq_specRows_witness :
    goodNames exGoodTree = true ∧
    scan_folder_recursive exGoodTree "" = specRows exGoodTree :=
  ⟨by decide, scan_eq_specRows exGoodTree (by decide)⟩

/-- C1 counterexample: on the depth-2 chain whose outer folder is named `""`,
the walk emits the path `"b"` while the slash-joined concatenation of the
folder names is `"/b"`, so the walk does not return the slash-joined rows. -/
theorem scan_slashJoin_counterexample :
    ¬(scan_folder_recursive exBadTree "" = specRows exBadTree) := by decide

/-- C2: for every sequence of listing pages linked by continuation tokens
(a `PageChain` from the initial request), `list_children` follows the token
chain to its end and returns the concatenation of the item lists of all
pages, in order, with nothing added and nothing dropped. -/
theorem list_children_pages_complete (fetch : Option String → ListResp)
    (ps : List (List DriveItem)) (fuel : Nat)
    (hchain : PageChain fetch none ps) (hfuel : ps.length ≤ fuel) :
    list_children fetch fuel = some ps.flatten := by
  rw [list_children]
  simpa using list_children_loop_chain fetch hchain [] fuel hfuel

theorem list_children_pages_complete_witness :
    list_children exFetch 3 =
      some [⟨"a1", "a.mp3", "audio/mpeg", "", ""⟩, ⟨"a2", "doc.txt", "text/plain", "", ""⟩,
            ⟨"b1", "b.mp3", "audio/mpeg", "", ""⟩, ⟨"c1", "c.flac", "audio/flac", "", ""⟩] := by
  have h := list_children_pages_complete exFetch
    [[⟨"a1", "a.mp3", "audio/mpeg", "", ""⟩, ⟨"a2", "doc.txt", "text/plain", "", ""⟩],
     [⟨"b1", "b.mp3", "audio/mpeg", "", ""⟩], [⟨"c1", "c.flac", "audio/flac", "", ""⟩]] 3
    (PageChain.step rfl (PageChain.step rfl (PageChain.last rfl))) (by decide)
  simpa using h

/-- C3: `extract_folder_id` applies its four patterns in the fixed order
(folder path, drive folder path, `id=` query parameter, bare 25-plus
character id), returns the captured group of the first pattern that matches,
and returns `none` when no pattern matches; one concrete instance per
reachable pattern, and a non-matching string, behave as expected. -/
theorem extract_folder_id_spec :
    (∀ (url : String) (g : List Char),
      searchLitId "/folders/".data url.data = some g →
      extract_folder_id url = some (String.mk g)) ∧
    (∀ (url : String) (g : List Char),
      searchLitId "/folders/".data url.data = none →
      searchLitId "/drive/folders/".data url.data = some g →
      extract_folder_id url = some (String.mk g)) ∧
    (∀ (url : String) (g : List Char),
      searchLitId "/folders/".data url.data = none →
      searchLitId "/drive/folders/".data url.data = none →
      searchLitId "id=".data url.data = some g →
      extract_folder_id url = some (String.mk g)) ∧
    (∀ (url : String) (g : List Char),
      searchLitId "/folders/".data url.data = none →
      searchLitId "/drive/folders/".data url.data = none →
      searchLitId "id=".data url.data = none →
      matchBareId url.data = some g →
      extract_folder_id url = some (String.mk g)) ∧
    (∀ url : String,
      searchLitId "/folders/".data url.data = none →
      searchLitId "/drive/folders/".data url.data = none →
      searchLitId "id=".data url.data = none →
      matchBareId url.data = none →
      extract_folder_id url = none) ∧
    extract_folder_id "https://drive.google.com/drive/folders/1AbC-xyz_9?usp=sharing"
      = some "1AbC-xyz_9" ∧
    extract_folder_id "https://drive.google.com/open?id=XYZ-987" = some "XYZ-987" ∧
    extract_folder_id "ABCDEFGHIJKLMNOPQRSTUVWXY" = some "ABCDEFGHIJKLMNOPQRSTUVWXY" ∧
    extract_folder_id "no folder reference here" = none := by
  refine ⟨?_, ?_, ?_, ?_, ?_, by decide, by decide, by decide, by decide⟩
  · intro url g h1
    rw [extract_folder_id, h1]
  · intro url g h1 h2
    rw [extract_folder_id, h1, h2]
  · intro url g h1 h2 h3
    rw [extract_folder_id, h1, h2, h3]
  · intro url g h1 h2 h3 h4
    rw [extract_folder_id, h1, h2, h3, h4]
  · intro url h1 h2 h3 h4
    rw [extract_folder_id, h1, h2, h3, h4]

theorem extract_folder_id_spec_witness :
    extract_folder_id "x/folders/abc" = some (String.mk "abc".data) :=
  extract_folder_id_spec.1 "x/folders/abc" "abc".data (by decide)

/-- C4: `is_audio_file` holds exactly when the lowercased name ends with one
of the eight extensions of the fixed allow-list; in particular `"Song.MP3"`
is audio and `"notes.txt"` is not. -/
theorem is_audio_file_spec :
    (∀ name : String, is_audio_file name = true ↔
      (".mp3".data.isSuffixOf (name.data.map Char.toLower) = true ∨
       ".wav".data.isSuffixOf (name.data.map Char.toLower) = true ∨
       ".m4a".data.isSuffixOf (name.data.map Char.toLower) = true ∨
       ".aac".data.isSuffixOf (name.data.map Char.toLower) = true ∨
       ".flac".data.isSuffixOf (name.data.map Char.toLower) = true ∨
       ".ogg".data.isSuffixOf (name.data.map Char.toLower) = true ∨
       ".opus".data.isSuffixOf (name.data.map Char.toLower) = true ∨
       ".wma".data.isSuffixOf (name.data.map Char.toLower) = true)) ∧
    is_audio_file "Song.MP3" = true ∧
    is_audio_file "notes.txt" = false := by
  refine ⟨?_, by decide, by decide⟩
  intro name
  simp [is_audio_file, AUDIO_EXTENSIONS]

theorem is_audio_file_spec_witness : is_audio_file "Song.MP3" = true :=
  (is_audio_file_spec.1 "Song.MP3").mpr (Or.inl (by decide))

/-- C5: for every non-empty list of 7-field rows, the CSV built by the
extraction begins with the fixed 7-column header line, and reading the CSV
back yields the header row followed by each original row with its 7 fields
unchanged. -/
theorem run_csv_roundtrip (results : List (List String))
    (hne : results ≠ []) (h7 : ∀ r ∈ results, r.length = 7) :
    run_csv results
      = CSV_HEADER_LINE ++ encodeCSV (results.map (fun r => r.map String.data)) ∧
    parseCSV (run_csv results) = (HEADER :: results).map (fun r => r.map String.data) := by
  constructor
  · rw [run_csv, List.map_cons, encodeCSV_cons]
    congr 1
  · rw [run_csv]
    apply parseCSV_encodeCSV
    intro r hr
    rcases List.mem_map.mp hr with ⟨r0, hr0, rfl⟩
    rcases List.mem_cons.mp hr0 with h | h
    · subst h
      simp [HEADER]
    · have h0 := h7 r0 h
      intro hc
      rw [List.map_eq_nil_iff] at hc
      subst hc
      simp at h0

theorem run_csv_roundtrip_witness :
    (([["a,b", "quote\"q", "line\r\nbreak", "plain", "", "2024-05-06", "id1"]] :
        List (List String)) ≠ []) ∧
    parseCSV (run_csv [["a,b", "quote\"q", "line\r\nbreak", "plain", "", "2024-05-06", "id1"]])
      = (HEADER :: [["a,b", "quote\"q", "line\r\nbreak", "plain", "", "2024-05-06", "id1"]]).map
          (fun r => r.map String.data) :=
  ⟨by decide,
   (run_csv_roundtrip [["a,b", "quote\"q", "line\r\nbreak", "plain", "", "2024-05-06", "id1"]]
     (by decide) (by decide)).2⟩

/-- C6: when the recursive scan returns zero rows, `run_extraction` builds
the client, reports success with a zero count, then warns and stops without
offering a download; and a download is offered only for a non-empty result
set (its data being exactly the CSV of that result set). -/
theorem run_extraction_empty_results :
    (∀ (drive : String → DriveForest) (url fid : String),
      extract_folder_id url = some fid →
      scan_folder_recursive (drive fid) "" = [] →
      run_extraction drive url =
        [Effect.buildService,
         Effect.successMsg ("Done. Found " ++ toString (0 : Nat) ++ " audio files."),
         Effect.warningMsg
           "No audio files found, or the folder isn\x27t shared with the service account."]) ∧
    (∀ (drive : String → DriveForest) (url : String) (data : List Char),
      Effect.downloadCsv data ∈ run_extraction drive url →
      ∃ fid, extract_folder_id url = some fid ∧
        ¬scan_folder_recursive (drive fid) "" = [] ∧
        data = run_csv (scan_folder_recursive (drive fid) "")) := by
  constructor
  · intro drive url fid hfid hscan
    rw [run_extraction, hfid]
    simp [hscan]
  · intro drive url data hmem
    rw [run_extraction] at hmem
    cases hfid : extract_folder_id url with
    | none =>
      rw [hfid] at hmem
      simp at hmem
    | some fid =>
      rw [hfid] at hmem
      by_cases hempty : (scan_folder_recursive (drive fid) "").isEmpty
      · simp [hempty] at hmem
      · simp [hempty] at hmem
        exact ⟨fid, rfl, by simpa [List.isEmpty_iff] using hempty, hmem⟩

theorem run_extraction_empty_results_witness :
    run_extraction (fun _ => DriveForest.nil) "x/folders/abcdef"
      = [Effect.buildService,
         Effect.successMsg ("Done. Found " ++ toString (0 : Nat) ++ " audio files."),
         Effect.warningMsg
           "No audio files found, or the folder isn\x27t shared with the service account."] :=
  run_extraction_empty_results.1 (fun _ => DriveForest.nil) "x/folders/abcdef" "abcdef"
    (by decide) (by decide)

/-- C7: when no pattern extracts a folder id from the input,
`run_extraction` reports the error and stops: its whole trace is the error
message, so no client is built, nothing is listed and no CSV is offered. -/
theorem run_extraction_invalid_url :
    (∀ (drive : String → DriveForest) (url : String),
      extract_folder_id url = none →
      run_extraction drive url = [Effect.errorMsg "Invalid folder URL / ID"]) ∧
    (∀ (drive : String → DriveForest) (url : String),
      extract_folder_id url = none →
      ¬Effect.buildService ∈ run_extraction drive url ∧
      (∀ data : List Char, ¬Effect.downloadCsv data ∈ run_extraction drive url) ∧
      (∀ msg : String, ¬Effect.successMsg msg ∈ run_extraction drive url)) := by
  have key : ∀ (drive : String → DriveForest) (url : String),
      extract_folder_id url = none →
      run_extraction drive url = [Effect.errorMsg "Invalid folder URL / ID"] := by
    intro drive url hnone
    rw [run_extraction, hnone]
  refine ⟨key, ?_⟩
  intro drive url hnone
  rw [key drive url hnone]
  refine ⟨by simp, fun data => by simp, fun msg => by simp⟩

theorem run_extraction_invalid_url_witness :
    run_extraction (fun _ => DriveForest.nil) "hello"
      = [Effect.errorMsg "Invalid folder URL / ID"] :=
  run_extraction_invalid_url.1 (fun _ => DriveForest.nil) "hello" (by decide)

/-- C8: every row the walk emits carries, in its share-link and direct-link
columns, exactly the two fixed URL templates with the row's file id
interpolated. -/
theorem scan_rows_link_templates (ts : DriveForest) (path : String) :
    ∀ row ∈ scan_folder_recursive ts path,
      ∃ name p w c id, row =
        [name, p, w,
         "https://drive.google.com/file/d/" ++ id ++ "/view?usp=sharing",
         "https://drive.google.com/uc?id=" ++ id,
         c, id] := by
  induction ts, path using scan_folder_recursive.induct with
  | case1 path =>
    intro row h
    simp [scan_folder_recursive] at h
  | case2 item children rest path ih1 ih2 =>
    intro row hmem
    rw [scan_folder_recursive] at hmem
    rcases List.mem_append.mp hmem with hm | hm
    · by_cases hfold : item.mimeType = FOLDER_MIME
      · rw [if_pos hfold] at hm
        exact ih1 row hm
      · rw [if_neg hfold] at hm
        by_cases ha : is_audio_file item.name
        · rw [if_pos ha] at hm
          simp at hm
          subst hm
          exact ⟨item.name, path, item.webViewLink, item.createdTime, item.id, rfl⟩
        · rw [if_neg ha] at hm
          simp at hm
    · exact ih2 row hm

theorem scan_rows_link_templates_witness :
    ∃ name p w c id,
      (audioRow "" ⟨"x4", "root.wav", "audio/wav", "2024-01-06", "wv4"⟩ : List String)
        = [name, p, w,
           "https://drive.google.com/file/d/" ++ id ++ "/view?usp=sharing",
           "https://drive.google.com/uc?id=" ++ id,
           c, id] :=
  scan_rows_link_templates exGoodTree ""
    (audioRow "" ⟨"x4", "root.wav", "audio/wav", "2024-01-06", "wv4"⟩) (by decide)

/-- C9: the second pattern is redundant: for every input,
`extract_folder_id` returns the same result as the extractor with the
drive-folder-path pattern removed, because a match of
`/drive/folders/([a-zA-Z0-9_-]+)` contains a match of
`/folders/([a-zA-Z0-9_-]+)`, so the first pattern already fires. -/
theorem extract_folder_id_noSecond_eq (url : String) :
    extract_folder_id url = extract_folder_id_noSecond url := by
  rw [extract_folder_id, extract_folder_id_noSecond]
  cases h1 : searchLitId "/folders/".data url.data with
  | some g => rfl
  | none =>
    cases h2 : searchLitId "/drive/folders/".data url.data with
    | none => rfl
    | some g =>
      have := searchLitId_drive_folders url.data (by rw [h2]; rfl)
      rw [h1] at this
      simp at this

theorem extract_folder_id_noSecond_eq_witness :
    extract_folder_id "https://drive.google.com/drive/folders/1AbC-xyz_9"
      = extract_folder_id_noSecond "https://drive.google.com/drive/folders/1AbC-xyz_9" :=
  extract_folder_id_noSecond_eq "https://drive.google.com/drive/folders/1AbC-xyz_9"

/-- C10: an audio file that is a direct child of the scanned root is emitted
with the empty folder path (the root itself contributes no name), and the
path extension prepends the slash separator only when the current path is
non-empty. -/
theorem scan_direct_children_empty_path :
    (∀ (ts : DriveForest) (item : DriveItem) (children : DriveForest),
      memForest (DriveTree.node item children) ts →
      ¬item.mimeType = FOLDER_MIME → is_audio_file item.name = true →
      audioRow "" item ∈ scan_folder_recursive ts "") ∧
    (∀ n : String, new_path "" n = n) ∧
    (∀ p n : String, ¬p = "" → new_path p n = p ++ "/" ++ n) := by
  refine ⟨fun ts => scan_root_children ts, ?_, ?_⟩
  · intro n
    simp [new_path]
  · intro p n hp
    simp [new_path, hp]

theorem scan_direct_children_empty_path_witness :
    audioRow "" ⟨"x4", "root.wav", "audio/wav", "2024-01-06", "wv4"⟩
      ∈ scan_folder_recursive exGoodTree "" :=
  scan_direct_children_empty_path.1 exGoodTree
    ⟨"x4", "root.wav", "audio/wav", "2024-01-06", "wv4"⟩ DriveForest.nil
    (Or.inr (Or.inl rfl)) (by decide) (by decide)

end DriveExtractor
